import Mathlib

/-!
Shallow embedding of the ge_tracker repository (item_manager.py, getracker.py,
settings_gui.py): the catalog store with tokenized search, the persisted
watchlist, the price-refresh state transition, and price formatting.

Python dicts are modelled as insertion-ordered association lists with unique
keys; Python exceptions escaping an expression are modelled with `Option`
(`none` = an uncaught exception); floats in `format_price` are modelled as
exact rationals via integer arithmetic with round-half-even, which agrees with
CPython whenever the quotient is exactly representable (all inputs the spec
pins digits for).
-/

namespace GeTracker

/-! ## Association-list model of Python dicts (insertion-ordered, unique keys) -/

def alookup {α β : Type} [DecidableEq α] (k : α) : List (α × β) → Option β
  | [] => none
  | (k', v) :: rest => if k' = k then some v else alookup k rest

def akeys {α β : Type} (l : List (α × β)) : List α := l.map Prod.fst

/-- Python `d[k] = v`: update in place if the key exists, else append. -/
def dinsert {α β : Type} [DecidableEq α] (k : α) (v : β) : List (α × β) → List (α × β)
  | [] => [(k, v)]
  | (k', v') :: rest => if k' = k then (k, v) :: rest else (k', v') :: dinsert k v rest

/-- Python `del d[k]` (keys are unique, so removing the first binding is `del`). -/
def aerase {α β : Type} [DecidableEq α] (k : α) : List (α × β) → List (α × β)
  | [] => []
  | (k', v) :: rest => if k' = k then rest else (k', v) :: aerase k rest

/-! ## Python string operations used by the code -/

/-- Python `str.lower()` (character-wise, adequate for the item names in play). -/
def pyLower (s : String) : String := String.mk (s.data.map Char.toLower)

def stripChars (l : List Char) : List Char :=
  ((l.dropWhile Char.isWhitespace).reverse.dropWhile Char.isWhitespace).reverse

/-- Python `str.strip()`: whitespace removed from both ends. -/
def pyStrip (s : String) : String := String.mk (stripChars s.data)

def splitWSAux : List Char → List Char → List String
  | [], acc => if acc.isEmpty then [] else [String.mk acc.reverse]
  | c :: cs, acc =>
    if c.isWhitespace then
      if acc.isEmpty then splitWSAux cs [] else String.mk acc.reverse :: splitWSAux cs []
    else splitWSAux cs (c :: acc)

/-- Python `str.split()` with no argument: whitespace-delimited, empties dropped. -/
def pySplit (s : String) : List String := splitWSAux s.data []

def infixBool : List Char → List Char → Bool
  | needle, [] => needle.isEmpty
  | needle, c :: rest => needle.isPrefixOf (c :: rest) || infixBool needle rest

/-- Python `needle in hay` on strings: substring containment. -/
def pyContains (hay needle : String) : Bool := infixBool needle.data hay.data

/-! ## Catalog store (ItemManager.name_to_id / id_to_name) -/

structure Catalog where
  name_to_id : List (String × Nat)
  id_to_name : List (Nat × String)
deriving DecidableEq

def emptyCatalog : Catalog := ⟨[], []⟩

/-- Every id stored in `name_to_id` has a canonical name in `id_to_name`
(true of every catalog `refresh_mappings` builds). -/
def CatalogWF (c : Catalog) : Bool :=
  c.name_to_id.all fun p => (alookup p.2 c.id_to_name).isSome

/-- The per-suggestion double lookup `id_to_name[name_to_id[key]]`
performed by `ItemManager.search_item`. -/
def canonName (c : Catalog) (key : String) : Option String :=
  match alookup key c.name_to_id with
  | none => none
  | some i => alookup i c.id_to_name

/-! ## Stable sort by length (Python `list.sort(key=len)` — Timsort is stable,
and a stable sort's result is uniquely determined, so stable insertion sort
is an exact model of the result). -/

def insertByLen (x : String) : List String → List String
  | [] => [x]
  | y :: ys => if y.length < x.length then y :: insertByLen x ys else x :: y :: ys

def sortByLen : List String → List String
  | [] => []
  | x :: xs => insertByLen x (sortByLen xs)

/-- The `matches` list built by `search_item`: catalog keys (in iteration
order) containing every query token as a substring. -/
def search_matches (c : Catalog) (ql : String) : List String :=
  (akeys c.name_to_id).filter fun name => (pySplit ql).all fun t => pyContains name t

/-- The Python loop appending `id_to_name[name_to_id[key]]` per suggestion:
a `KeyError` anywhere aborts (`none`). -/
def omapM {α β : Type} (f : α → Option β) : List α → Option (List β)
  | [] => some []
  | x :: xs =>
    match f x, omapM f xs with
    | some y, some ys => some (y :: ys)
    | _, _ => none

/-- `ItemManager.search_item`, tokenized branch (query not an exact key).
`none` models an uncaught `KeyError`/`IndexError`. -/
def search_tokens (c : Catalog) (ql : String) :
    Option (Option String × Option Nat × List String) :=
  if pySplit ql = [] then some (none, none, [])
  else if search_matches c ql = [] then some (none, none, [])
  else
    match sortByLen (search_matches c ql) with
    | [] => none
    | best :: rest =>
      match alookup best c.name_to_id with
      | none => none
      | some best_id =>
        match alookup best_id c.id_to_name with
        | none => none
        | some real_name =>
          match omapM (canonName c) (rest.take 5) with
          | none => none
          | some suggestions => some (some real_name, some best_id, suggestions)

/-- `ItemManager.search_item`: normalize the query, try an exact key hit,
else fall through to the tokenized search. -/
def search_item (c : Catalog) (query : String) :
    Option (Option String × Option Nat × List String) :=
  match alookup (pyStrip (pyLower query)) c.name_to_id with
  | some iid => (alookup iid c.id_to_name).map fun n => (some n, some iid, ([] : List String))
  | none => search_tokens c (pyStrip (pyLower query))

/-! ## Catalog refresh (ItemManager.refresh_mappings)

The try-block's failure points, in program order:
`requests.get`/`raise_for_status` (transport), `response.json()` (JSON decode)
— both BEFORE `name_to_id.clear()` — and then, AFTER the clears, the
`for item in data` loop, which raises if the decoded body is not a list of
dicts. All exceptions are swallowed by the `except` clause. -/

/-- One element of the decoded JSON payload: a JSON object (with optional
`name`/`id` fields, `none` when missing or null) or any non-object value,
whose `item.get(...)` raises `AttributeError`. -/
inductive PyItem where
  | dict (name : Option String) (id : Option Nat)
  | nondict
deriving DecidableEq

/-- The decoded JSON body: a JSON array, a JSON object (Python iterates its
string keys, and `key.get(...)` raises on the first one), or a scalar
(`for item in data` raises `TypeError` immediately). -/
inductive PyData where
  | jarray (items : List PyItem)
  | jdict (keys : List String)
  | jscalar
deriving DecidableEq

/-- Outcome of the fetch+decode prelude of `refresh_mappings`. -/
inductive MapFetch where
  | transportError
  | jsonError
  | payload (data : PyData)
deriving DecidableEq

/-- `name_to_id[item_name.lower()] = item_id; id_to_name[item_id] = item_name`. -/
def insertMapping (c : Catalog) (name : String) (iid : Nat) : Catalog :=
  { name_to_id := dinsert (pyLower name) iid c.name_to_id
    id_to_name := dinsert iid name c.id_to_name }

/-- The `for item in data` loop (over a list payload), starting from the
cleared mappings; a non-dict item raises, leaving the state built so far.
`if item_name and item_id` is Python truthiness: `None`, `""` and `0` skip. -/
def procItems : Catalog → List PyItem → Catalog
  | c, [] => c
  | c, .dict name iid :: rest =>
    match name, iid with
    | some s, some i => if s ≠ "" ∧ i ≠ 0 then procItems (insertMapping c s i) rest else procItems c rest
    | _, _ => procItems c rest
  | c, .nondict :: _ => c

/-- `ItemManager.refresh_mappings` as a state transition on the catalog:
failures before the clears leave the state; any list payload is processed
from the cleared state; non-list payloads raise after the clears
(a nonempty object payload raises on its first key, an empty object simply
loads nothing, a scalar raises at the `for` — all end with empty mappings). -/
def refresh_mappings (c : Catalog) (f : MapFetch) : Catalog :=
  match f with
  | .transportError => c
  | .jsonError => c
  | .payload (.jarray items) => procItems emptyCatalog items
  | .payload (.jdict _) => emptyCatalog
  | .payload .jscalar => emptyCatalog

/-- Whether the try-block of `refresh_mappings` runs to completion
(no exception raised, "Loaded N items" printed). -/
def refresh_ok : MapFetch → Bool
  | .transportError => false
  | .jsonError => false
  | .payload (.jarray items) => items.all fun it => match it with | .dict _ _ => true | .nondict => false
  | .payload (.jdict keys) => keys.isEmpty
  | .payload .jscalar => false

/-! ## Watchlist store (ItemManager watchlist + persistence) -/

/-- The persisted config file: absent, present-but-unreadable/unparseable,
or parseable as a name→id object. -/
inductive FileState where
  | absent
  | corrupt
  | content (w : List (String × Nat))
deriving DecidableEq

/-- The literal defaults of `ItemManager.load_config`. -/
def default_watchlist : List (String × Nat) :=
  [("Old school bond", 13190), ("Cooked karambwan", 3144), ("Raw karambwan", 3142)]

/-- `ItemManager.load_config`: absent file seeds the defaults; a corrupt file
is logged and yields the EMPTY watchlist; otherwise the parsed content.
Total: no exception escapes. -/
def load_config : FileState → List (String × Nat)
  | .absent => default_watchlist
  | .corrupt => []
  | .content w => w

/-- `ItemManager.save_config`: writes the watchlist on success; a disk
failure is logged and leaves the file as it was. -/
def save_config (diskOk : Bool) (w : List (String × Nat)) (file : FileState) : FileState :=
  if diskOk then .content w else file

/-- `ItemManager.add_to_watchlist` (the in-memory mutation). -/
def add_to_watchlist (w : List (String × Nat)) (name : String) (item_id : Nat) :
    List (String × Nat) :=
  dinsert name item_id w

/-- `ItemManager.remove_from_watchlist` (the in-memory mutation):
`if name in watchlist: del watchlist[name]`. -/
def remove_from_watchlist (w : List (String × Nat)) (name : String) : List (String × Nat) :=
  if (alookup name w).isSome then aerase name w else w

/-- `SettingsGUI.save_reorder`'s loop: rebuild a fresh dict, copying each
listed name's stored id from the old watchlist when present. -/
def save_reorder (old : List (String × Nat)) :
    List String → List (String × Nat) → List (String × Nat)
  | [], acc => acc
  | name :: rest, acc =>
    match alookup name old with
    | some i => save_reorder old rest (dinsert name i acc)
    | none => save_reorder old rest acc

/-- `SettingsGUI.save_reorder`, started from the empty dict. -/
def save_reorder_run (old : List (String × Nat)) (names : List String) :
    List (String × Nat) :=
  save_reorder old names []

/-! ## Decimal rendering and price formatting (OSRSGEMenuBar.format_price)

Python's float division and `.Nf` formatting are modelled as exact rational
arithmetic done in ℕ with round-half-even — exact whenever the quotient is a
representable double (in particular at every input whose digits the spec
asserts). -/

def natDigitsRevAux : Nat → Nat → List Char
  | 0, _ => []
  | _ + 1, 0 => []
  | fuel + 1, n + 1 => Nat.digitChar ((n + 1) % 10) :: natDigitsRevAux fuel ((n + 1) / 10)

def natDigitsRev (n : Nat) : List Char := natDigitsRevAux n n

/-- Python `str` of a non-negative int. -/
def natStr (n : Nat) : String :=
  if n = 0 then "0" else String.mk (natDigitsRev n).reverse

/-- Round-half-even of `a / b` (`b > 0`) as an integer. -/
def rhe_div (a b : Nat) : Nat :=
  if 2 * (a % b) < b then a / b
  else if b < 2 * (a % b) then a / b + 1
  else if (a / b) % 2 = 0 then a / b else a / b + 1

/-- The fractional part of an `.Nf` rendering: `m` (`< 10 ^ n`) zero-padded
to exactly `n` digits. -/
def fracStr (n m : Nat) : String :=
  String.mk (List.replicate (n - (natDigitsRev m).reverse.length) '0' ++ (natDigitsRev m).reverse)

/-- Python `f"{value/den:.{n}f}"` for non-negative integers. -/
def fmtFixed (value den n : Nat) : String :=
  natStr (rhe_div (value * 10 ^ n) den / 10 ^ n) ++ "." ++
    fracStr n (rhe_div (value * 10 ^ n) den % 10 ^ n)

/-- `OSRSGEMenuBar.format_price`: K/M/B suffixes by magnitude. -/
def format_price (price : Nat) : String :=
  if 1000000000 ≤ price then fmtFixed price 1000000000 2 ++ "B"
  else if 1000000 ≤ price then fmtFixed price 1000000 2 ++ "M"
  else if 1000 ≤ price then fmtFixed price 1000 1 ++ "K"
  else natStr price

/-- The displayed average: `(high + low) // 2` (getracker.py line 202). -/
def avg_price (high low : Nat) : Nat := (high + low) / 2

/-! ## Price snapshot, fetch transition and menu view (getracker.py) -/

/-- One value of the price snapshot: `high`/`low` may be absent. -/
structure PriceEntry where
  high : Option Nat
  low : Option Nat
deriving DecidableEq

/-- The mutable state the fetch paths write: `price_data`,
`last_update_str`, `new_data_available`. -/
structure FetchState where
  price_data : List (String × PriceEntry)
  last_update_str : String
  new_data_available : Bool
deriving DecidableEq

/-- What `fetch_prices()` handed back: `none` on any exception, or the
body's `data` field (empty when the key is missing). -/
inductive FetchResult where
  | failure
  | success (data : List (String × PriceEntry))
deriving DecidableEq

/-- The shared post-fetch step of `background_fetch_loop` (startup and
periodic iterations) and `refresh_callback`'s `one_off_refresh`:
`if data:` — Python truthiness, so `None` and `{}` both skip the update. -/
def apply_fetch (st : FetchState) (res : FetchResult) (now : String) : FetchState :=
  match res with
  | .failure => st
  | .success data =>
    if data = [] then st
    else { price_data := data, last_update_str := now, new_data_available := true }

/-- The four menu-item labels held for one watchlist entry. -/
structure Labels where
  main : String
  avg : String
  high : String
  low : String
deriving DecidableEq

/-- The per-entry body of `OSRSGEMenuBar.update_menu_view`: present id with
truthy high and low rewrites all four labels; present id with a falsy price
leaves every label as it was; an id absent from the snapshot rewrites only
the main label to "N/A". -/
def update_entry (item_name : String) (item_id : Nat)
    (price_data : List (String × PriceEntry)) (old : Labels) : Labels :=
  match alookup (natStr item_id) price_data with
  | some item_data =>
    if (item_data.high.getD 0) ≠ 0 ∧ (item_data.low.getD 0) ≠ 0 then
      { main := item_name ++ ": " ++ format_price (avg_price (item_data.high.getD 0) (item_data.low.getD 0)) ++ " gp"
        avg := "💰 Average: " ++ format_price (avg_price (item_data.high.getD 0) (item_data.low.getD 0)) ++ " gp"
        high := "📈 High: " ++ format_price (item_data.high.getD 0) ++ " gp"
        low := "📉 Low: " ++ format_price (item_data.low.getD 0) ++ " gp" }
    else old
  | none => { old with main := item_name ++ ": N/A" }

/-! ## Concrete fixtures used by witnesses -/

def catalogBond : Catalog :=
  ⟨[("old school bond", 13190)], [(13190, "Old school bond")]⟩

def catalogScim : Catalog :=
  ⟨[("rune scimitar", 1), ("rune scimitar (or)", 2), ("bond", 3)],
   [(1, "Rune scimitar"), (2, "Rune scimitar (or)"), (3, "Bond")]⟩

/-! ## Helper lemmas: association lists -/

theorem alookup_mem {α β : Type} [DecidableEq α] {k : α} {v : β} :
    ∀ {l : List (α × β)}, alookup k l = some v → (k, v) ∈ l := by
  intro l
  induction l with
  | nil => intro h; simp [alookup] at h
  | cons p rest ih =>
    intro h
    by_cases hk : p.1 = k
    · simp only [alookup, hk, if_pos] at h
      cases h
      rw [← hk]
      exact List.mem_cons_self _ _
    · simp only [alookup, hk, if_neg, not_false_iff] at h
      exact List.mem_cons_of_mem _ (ih h)

theorem alookup_isSome_of_mem_keys {α β : Type} [DecidableEq α] {k : α} :
    ∀ {l : List (α × β)}, k ∈ akeys l → (alookup k l).isSome = true := by
  intro l
  induction l with
  | nil => intro h; simp [akeys] at h
  | cons p rest ih =>
    intro h
    by_cases hk : p.1 = k
    · simp [alookup, hk]
    · have : k ∈ akeys rest := by
        rcases (List.mem_cons.mp h) with h1 | h1
        · exact absurd h1.symm hk
        · exact h1
      simp [alookup, hk, ih this]

theorem catalogWF_lookup {c : Catalog} {k : String} {i : Nat}
    (hWF : CatalogWF c = true) (h : alookup k c.name_to_id = some i) :
    (alookup i c.id_to_name).isSome = true := by
  have hmem : (k, i) ∈ c.name_to_id := alookup_mem h
  have := (List.all_eq_true.mp hWF) (k, i) hmem
  simpa using this

theorem dinsert_of_lookup_none {α β : Type} [DecidableEq α] {k : α} (v : β) :
    ∀ {l : List (α × β)}, alookup k l = none → dinsert k v l = l ++ [(k, v)] := by
  intro l
  induction l with
  | nil => intro _; rfl
  | cons p rest ih =>
    intro h
    by_cases hk : p.1 = k
    · simp [alookup, hk] at h
    · simp only [alookup, hk, if_neg, not_false_iff] at h
      show dinsert k v (p :: rest) = p :: rest ++ [(k, v)]
      calc dinsert k v ((p.1, p.2) :: rest)
          = (p.1, p.2) :: dinsert k v rest := by simp [dinsert, hk]
        _ = p :: (rest ++ [(k, v)]) := by rw [ih h]
        _ = p :: rest ++ [(k, v)] := rfl

theorem alookup_dinsert_self {α β : Type} [DecidableEq α] (k : α) (v : β) :
    ∀ (l : List (α × β)), alookup k (dinsert k v l) = some v := by
  intro l
  induction l with
  | nil => simp [dinsert, alookup]
  | cons p rest ih =>
    by_cases hk : p.1 = k
    · simp [dinsert, hk, alookup]
    · show alookup k (dinsert k v ((p.1, p.2) :: rest)) = some v
      simp only [dinsert, hk, if_neg, not_false_iff]
      simp [alookup, hk, ih]

theorem alookup_dinsert_ne {α β : Type} [DecidableEq α] {k' k : α} (v : β)
    (hne : k' ≠ k) : ∀ (l : List (α × β)), alookup k' (dinsert k v l) = alookup k' l := by
  intro l
  induction l with
  | nil =>
    have h1 : ¬(k = k') := fun h => hne h.symm
    simp [dinsert, alookup, h1]
  | cons p rest ih =>
    by_cases hk : p.1 = k
    · show alookup k' (dinsert k v ((p.1, p.2) :: rest)) = _
      simp only [dinsert, hk, if_pos]
      have h1 : ¬(k = k') := fun h => hne h.symm
      simp [alookup, h1, hk]
    · show alookup k' (dinsert k v ((p.1, p.2) :: rest)) = _
      simp only [dinsert, hk, if_neg, not_false_iff]
      by_cases hp : p.1 = k'
      · simp [alookup, hp]
      · simp [alookup, hp, ih]

theorem alookup_aerase_ne {α β : Type} [DecidableEq α] {k' k : α}
    (hne : k' ≠ k) : ∀ (l : List (α × β)), alookup k' (aerase k l) = alookup k' l := by
  intro l
  induction l with
  | nil => rfl
  | cons p rest ih =>
    by_cases hk : p.1 = k
    · show alookup k' (aerase k ((p.1, p.2) :: rest)) = _
      simp only [aerase, hk, if_pos]
      have h1 : ¬(p.1 = k') := by rw [hk]; exact fun h => hne h.symm
      simp [alookup, h1]
    · show alookup k' (aerase k ((p.1, p.2) :: rest)) = _
      simp only [aerase, hk, if_neg, not_false_iff]
      by_cases hp : p.1 = k'
      · simp [alookup, hp]
      · simp [alookup, hp, ih]

theorem alookup_append_of_none {α β : Type} [DecidableEq α] {k : α} {l₁ l₂ : List (α × β)}
    (h : alookup k l₁ = none) : alookup k (l₁ ++ l₂) = alookup k l₂ := by
  induction l₁ with
  | nil => rfl
  | cons p rest ih =>
    by_cases hk : p.1 = k
    · simp [alookup, hk] at h
    · simp only [alookup, hk, if_neg, not_false_iff] at h
      show alookup k ((p.1, p.2) :: (rest ++ l₂)) = _
      simp [alookup, hk, ih h]

theorem length_dinsert_of_none {α β : Type} [DecidableEq α] {k : α} (v : β)
    {l : List (α × β)} (h : alookup k l = none) :
    (dinsert k v l).length = l.length + 1 := by
  rw [dinsert_of_lookup_none v h]
  simp

/-! ## Helper lemmas: the stable length sort -/

theorem insertByLen_perm (x : String) :
    ∀ (l : List String), (insertByLen x l).Perm (x :: l) := by
  intro l
  induction l with
  | nil => exact List.Perm.refl _
  | cons y ys ih =>
    by_cases h : y.length < x.length
    · simp only [insertByLen, h, if_pos]
      exact List.Perm.trans (List.Perm.cons y ih) (List.Perm.swap x y ys)
    · simp only [insertByLen, h, if_neg, not_false_iff]
      exact List.Perm.refl _

theorem sortByLen_perm : ∀ (l : List String), (sortByLen l).Perm l := by
  intro l
  induction l with
  | nil => exact List.Perm.refl _
  | cons x xs ih =>
    exact List.Perm.trans (insertByLen_perm x (sortByLen xs)) (List.Perm.cons x ih)

theorem insertByLen_sorted (x : String) :
    ∀ {l : List String}, l.Pairwise (fun a b => a.length ≤ b.length) →
      (insertByLen x l).Pairwise (fun a b => a.length ≤ b.length) := by
  intro l
  induction l with
  | nil => intro _; simp [insertByLen]
  | cons y ys ih =>
    intro hp
    rcases List.pairwise_cons.mp hp with ⟨hy, hys⟩
    by_cases h : y.length < x.length
    · simp only [insertByLen, h, if_pos]
      apply List.pairwise_cons.mpr
      constructor
      · intro z hz
        have hz2 : z ∈ x :: ys := ((insertByLen_perm x ys).mem_iff).mp hz
        rcases List.mem_cons.mp hz2 with hz3 | hz3
        · rw [hz3]; exact Nat.le_of_lt h
        · exact hy z hz3
      · exact ih hys
    · simp only [insertByLen, h, if_neg, not_false_iff]
      apply List.pairwise_cons.mpr
      constructor
      · intro z hz
        rcases List.mem_cons.mp hz with hz3 | hz3
        · rw [hz3]; exact Nat.le_of_not_lt h
        · exact Nat.le_trans (Nat.le_of_not_lt h) (hy z hz3)
      · exact hp

theorem sortByLen_sorted :
    ∀ (l : List String), (sortByLen l).Pairwise (fun a b => a.length ≤ b.length) := by
  intro l
  induction l with
  | nil => simp [sortByLen]
  | cons x xs ih => exact insertByLen_sorted x ih

theorem filter_insertByLen (x : String) (n : Nat) :
    ∀ (l : List String),
      (insertByLen x l).filter (fun s => s.length == n) =
        if x.length = n then x :: l.filter (fun s => s.length == n)
        else l.filter (fun s => s.length == n) := by
  intro l
  induction l with
  | nil =>
    by_cases hx : x.length = n
    · simp [insertByLen, hx]
    · simp [insertByLen, hx]
  | cons y ys ih =>
    by_cases h : y.length < x.length
    · simp only [insertByLen, h, if_pos]
      by_cases hx : x.length = n
      · have hy : ¬(y.length = n) := by omega
        simp only [List.filter_cons]
        have hyb : (y.length == n) = false := by simp [hy]
        simp only [hyb, Bool.false_eq_true, if_neg, not_false_iff, ih, hx, if_pos]
      · simp only [List.filter_cons, ih, hx, if_neg, not_false_iff]
    · simp only [insertByLen, h, if_neg, not_false_iff]
      by_cases hx : x.length = n
      · simp [List.filter_cons, hx]
      · have hxb : (x.length == n) = false := by simp [hx]
        simp [List.filter_cons, hxb, hx]

theorem filter_sortByLen (n : Nat) :
    ∀ (l : List String),
      (sortByLen l).filter (fun s => s.length == n) = l.filter (fun s => s.length == n) := by
  intro l
  induction l with
  | nil => rfl
  | cons x xs ih =>
    show (insertByLen x (sortByLen xs)).filter _ = _
    rw [filter_insertByLen]
    by_cases hx : x.length = n
    · simp only [hx, if_pos, ih, List.filter_cons]
      simp [hx]
    · have hxb : (x.length == n) = false := by simp [hx]
      simp only [hx, if_neg, not_false_iff, ih, List.filter_cons, hxb]
      simp [hxb]

/-! ## Helper lemmas: omapM and string splitting -/

theorem omapM_isSome {α β : Type} (f : α → Option β) :
    ∀ (l : List α), (∀ x ∈ l, (f x).isSome = true) → ∃ ys, omapM f l = some ys := by
  intro l
  induction l with
  | nil => intro _; exact ⟨[], rfl⟩
  | cons x xs ih =>
    intro h
    rcases Option.isSome_iff_exists.mp (h x (List.mem_cons_self x xs)) with ⟨y, hy⟩
    rcases ih (fun z hz => h z (List.mem_cons_of_mem x hz)) with ⟨ys, hys⟩
    exact ⟨y :: ys, by simp [omapM, hy, hys]⟩

theorem dropWhile_head_false {α : Type} {p : α → Bool} :
    ∀ {l : List α} {c : α} {t : List α}, List.dropWhile p l = c :: t → p c = false := by
  intro l
  induction l with
  | nil => intro c t h; simp [List.dropWhile] at h
  | cons a as ih =>
    intro c t h
    by_cases ha : p a
    · simp only [List.dropWhile, ha, if_pos] at h
      exact ih h
    · simp only [List.dropWhile, ha, if_neg, not_false_iff] at h
      cases h
      simpa using ha

theorem splitWSAux_ne_nil :
    ∀ (l : List Char) (acc : List Char),
      (acc ≠ [] ∨ ∃ c ∈ l, Char.isWhitespace c = false) → splitWSAux l acc ≠ [] := by
  intro l
  induction l with
  | nil =>
    intro acc h
    rcases h with h | ⟨c, hc, _⟩
    · have : acc.isEmpty = false := by simpa [List.isEmpty_iff] using h
      simp [splitWSAux, this]
    · cases hc
  | cons a as ih =>
    intro acc h
    by_cases hw : a.isWhitespace
    · cases e : acc.isEmpty with
      | true =>
        have hacc : acc = [] := List.isEmpty_iff.mp e
        rcases h with h1 | ⟨c, hc, hcw⟩
        · exact absurd hacc h1
        · have hcas : c ∈ as := by
            rcases List.mem_cons.mp hc with h2 | h2
            · rw [h2] at hcw; rw [hw] at hcw; cases hcw
            · exact h2
          have := ih [] (Or.inr ⟨c, hcas, hcw⟩)
          simpa [splitWSAux, hw, e] using this
      | false =>
        simp [splitWSAux, hw, e]
    · have hne : a :: acc ≠ [] := by simp
      have := ih (a :: acc) (Or.inl hne)
      simpa [splitWSAux, hw] using this

theorem stripChars_exists_nonws (l : List Char) (h : stripChars l ≠ []) :
    ∃ c ∈ stripChars l, Char.isWhitespace c = false := by
  unfold stripChars at h ⊢
  cases e : (l.dropWhile Char.isWhitespace).reverse.dropWhile Char.isWhitespace with
  | nil => rw [e] at h; simp at h
  | cons c t =>
    refine ⟨c, ?_, dropWhile_head_false e⟩
    simp

theorem pySplit_pyStrip_ne_nil (s : String) (h : pyStrip s ≠ "") :
    pySplit (pyStrip s) ≠ [] := by
  apply splitWSAux_ne_nil
  right
  have hne : stripChars s.data ≠ [] := by
    intro he
    apply h
    show String.mk (stripChars s.data) = ""
    rw [he]
  exact stripChars_exists_nonws s.data hne

/-! ## Helper lemmas: decimal rendering -/

theorem natDigitsRevAux_length_le :
    ∀ (fuel n k : Nat), n < 10 ^ k → (natDigitsRevAux fuel n).length ≤ k := by
  intro fuel
  induction fuel with
  | zero => intro n k _; simp [natDigitsRevAux]
  | succ f ih =>
    intro n k h
    cases n with
    | zero => simp [natDigitsRevAux]
    | succ m =>
      cases k with
      | zero => simp at h
      | succ j =>
        have h2 : m + 1 < 10 * 10 ^ j := by
          rw [← pow_succ']
          exact h
        have hdiv : (m + 1) / 10 < 10 ^ j := Nat.div_lt_of_lt_mul h2
        show (Nat.digitChar _ :: natDigitsRevAux f ((m + 1) / 10)).length ≤ j + 1
        simp only [List.length_cons]
        exact Nat.succ_le_succ (ih _ _ hdiv)

theorem fracStr_length (n m : Nat) (h : m < 10 ^ n) : (fracStr n m).length = n := by
  have hlen : (natDigitsRev m).length ≤ n := natDigitsRevAux_length_le m m n h
  show (List.replicate (n - (natDigitsRev m).reverse.length) '0' ++ (natDigitsRev m).reverse).length = n
  simp only [List.length_append, List.length_replicate, List.length_reverse]
  omega

theorem fmtFixed_shape (value den n : Nat) :
    ∃ ip fr : String, fmtFixed value den n = ip ++ "." ++ fr ∧ fr.length = n :=
  ⟨natStr (rhe_div (value * 10 ^ n) den / 10 ^ n),
   fracStr n (rhe_div (value * 10 ^ n) den % 10 ^ n),
   rfl,
   fracStr_length n _ (Nat.mod_lt _ (pow_pos (by norm_num) n))⟩

/-! ## Helper lemmas: save_reorder -/

theorem save_reorder_eq_append (old : List (String × Nat)) :
    ∀ (names : List String) (acc : List (String × Nat)),
      names.Nodup → (∀ nm ∈ names, alookup nm acc = none) →
      save_reorder old names acc =
        acc ++ names.filterMap (fun nm => (alookup nm old).map (fun i => (nm, i))) := by
  intro names
  induction names with
  | nil => intro acc _ _; simp [save_reorder]
  | cons nm rest ih =>
    intro acc hnd hacc
    rcases List.nodup_cons.mp hnd with ⟨hnm, hrest⟩
    cases hcase : alookup nm old with
    | none =>
      have step : save_reorder old (nm :: rest) acc = save_reorder old rest acc := by
        simp [save_reorder, hcase]
      rw [step, ih acc hrest (fun z hz => hacc z (List.mem_cons_of_mem _ hz))]
      simp [List.filterMap_cons, hcase]
    | some i =>
      have step : save_reorder old (nm :: rest) acc = save_reorder old rest (dinsert nm i acc) := by
        simp [save_reorder, hcase]
      have hn : alookup nm acc = none := hacc nm (List.mem_cons_self _ _)
      have hfresh : ∀ z ∈ rest, alookup z (dinsert nm i acc) = none := by
        intro z hz
        have hzname : ¬(z = nm) := fun he => hnm (he ▸ hz)
        rw [dinsert_of_lookup_none i hn,
          alookup_append_of_none (hacc z (List.mem_cons_of_mem _ hz))]
        have : ¬(nm = z) := fun he => hzname he.symm
        simp [alookup, this]
      rw [step, ih (dinsert nm i acc) hrest hfresh, dinsert_of_lookup_none i hn]
      simp [List.filterMap_cons, hcase, List.append_assoc]

theorem save_reorder_run_eq (old : List (String × Nat)) (names : List String)
    (hnd : names.Nodup) :
    save_reorder_run old names =
      names.filterMap (fun nm => (alookup nm old).map (fun i => (nm, i))) := by
  unfold save_reorder_run
  rw [save_reorder_eq_append old names [] hnd (fun _ _ => rfl)]
  simp

theorem filterMap_lookup_map_fst (old : List (String × Nat)) :
    ∀ (names : List String), (∀ nm ∈ names, nm ∈ akeys old) →
      (names.filterMap (fun nm => (alookup nm old).map (fun i => (nm, i)))).map Prod.fst =
        names := by
  intro names
  induction names with
  | nil => intro _; rfl
  | cons nm rest ih =>
    intro h
    have h1 : (alookup nm old).isSome = true :=
      alookup_isSome_of_mem_keys (h nm (List.mem_cons_self _ _))
    rcases Option.isSome_iff_exists.mp h1 with ⟨i, hi⟩
    simp [List.filterMap_cons, hi, ih (fun z hz => h z (List.mem_cons_of_mem _ hz))]

/-! ## Claim theorems -/

/-- C2, counterexample: a refresh whose fetched body is valid JSON but a list
containing a non-object fails (the try-block does not complete), yet the
prior mappings are NOT left as they were — they are cleared and partially
refilled. This falsifies "if a catalog refresh fails for any transport or
parse reason then both in-memory mappings are left exactly as they were". -/
theorem C2_refresh_counterexample :
    refresh_ok (MapFetch.payload (PyData.jarray [PyItem.dict (some "Xyz") (some 7), PyItem.nondict])) = false ∧
    refresh_mappings ⟨[("abc", 1)], [(1, "Abc")]⟩
        (MapFetch.payload (PyData.jarray [PyItem.dict (some "Xyz") (some 7), PyItem.nondict]))
      = ⟨[("xyz", 7)], [(7, "Xyz")]⟩ ∧
    (⟨[("xyz", 7)], [(7, "Xyz")]⟩ : Catalog) ≠ ⟨[("abc", 1)], [(1, "Abc")]⟩ :=
  ⟨by decide, by decide, by decide⟩

/-- C2, amended: failures that occur before the decoded body is iterated
(transport errors and JSON-decode errors) leave both mappings exactly as
they were — no exception propagates (the model is a total function) and
search resolves exactly as before; a refresh whose try-block completes
wholesale-replaces the mappings with the processed fetched catalog,
independent of the prior state. -/
theorem C2_refresh_amended (c : Catalog) :
    (refresh_mappings c MapFetch.transportError = c) ∧
    (refresh_mappings c MapFetch.jsonError = c) ∧
    (∀ q, search_item (refresh_mappings c MapFetch.transportError) q = search_item c q) ∧
    (∀ q, search_item (refresh_mappings c MapFetch.jsonError) q = search_item c q) ∧
    (∀ items, refresh_ok (MapFetch.payload (PyData.jarray items)) = true →
      refresh_mappings c (MapFetch.payload (PyData.jarray items)) = procItems emptyCatalog items) :=
  ⟨rfl, rfl, fun _ => rfl, fun _ => rfl, fun _ _ => rfl⟩

theorem C2_refresh_amended_witness :
    refresh_mappings ⟨[("x", 9)], [(9, "X")]⟩
        (MapFetch.payload (PyData.jarray [PyItem.dict (some "Abc") (some 1)]))
      = procItems emptyCatalog [PyItem.dict (some "Abc") (some 1)] ∧
    procItems emptyCatalog [PyItem.dict (some "Abc") (some 1)] = ⟨[("abc", 1)], [(1, "Abc")]⟩ :=
  ⟨(C2_refresh_amended ⟨[("x", 9)], [(9, "X")]⟩).2.2.2.2
      [PyItem.dict (some "Abc") (some 1)] (by decide),
   by decide⟩

/-- C3, counterexample: a present-but-corrupt config file does NOT yield the
documented literal defaults — `load_config` substitutes the empty watchlist.
This falsifies "if the file is absent OR its content is corrupt, load
returns the built-in default watchlist". -/
theorem C3_load_counterexample : load_config FileState.corrupt ≠ default_watchlist := by
  decide

/-- C3, amended: `load_config` never raises (it is total); an absent file
yields the built-in literal defaults, while a corrupt (unreadable or
unparseable) file is only logged and yields the EMPTY watchlist; a parseable
file yields its content. -/
theorem C3_load_amended :
    load_config FileState.absent = default_watchlist ∧
    load_config FileState.corrupt = [] ∧
    ∀ w, load_config (FileState.content w) = w :=
  ⟨rfl, rfl, fun _ => rfl⟩

/-- C5, counterexample: an entry whose id IS in the snapshot but whose high
price is zero is NOT rendered "N/A" — all four labels are left untouched.
This falsifies "an entry whose high or low price is absent or zero is
rendered with the label N/A". -/
theorem C5_view_counterexample :
    update_entry "Foo" 7 [("7", ⟨some 0, some 5⟩)] ⟨"Foo: ...", "a", "b", "c"⟩
      = ⟨"Foo: ...", "a", "b", "c"⟩ ∧
    (update_entry "Foo" 7 [("7", ⟨some 0, some 5⟩)] ⟨"Foo: ...", "a", "b", "c"⟩).main
      ≠ "Foo: N/A" :=
  ⟨by decide, by decide⟩

/-- C5, amended: an entry whose id is ABSENT from the snapshot gets its main
label rewritten to "name: N/A" (submenu labels untouched); an entry present
in the snapshot with absent-or-zero high or low is left entirely unchanged
(stale labels); only an entry with both prices present and nonzero gets the
formatted average/high/low labels. -/
theorem C5_view_amended (name : String) (iid : Nat)
    (pd : List (String × PriceEntry)) (old : Labels) :
    (alookup (natStr iid) pd = none →
      update_entry name iid pd old = { old with main := name ++ ": N/A" }) ∧
    (∀ d, alookup (natStr iid) pd = some d →
      (d.high.getD 0 = 0 ∨ d.low.getD 0 = 0) →
      update_entry name iid pd old = old) ∧
    (∀ d, alookup (natStr iid) pd = some d →
      d.high.getD 0 ≠ 0 → d.low.getD 0 ≠ 0 →
      update_entry name iid pd old =
        ⟨name ++ ": " ++ format_price (avg_price (d.high.getD 0) (d.low.getD 0)) ++ " gp",
         "💰 Average: " ++ format_price (avg_price (d.high.getD 0) (d.low.getD 0)) ++ " gp",
         "📈 High: " ++ format_price (d.high.getD 0) ++ " gp",
         "📉 Low: " ++ format_price (d.low.getD 0) ++ " gp"⟩) := by
  refine ⟨?_, ?_, ?_⟩
  · intro h
    simp [update_entry, h]
  · intro d hd hz
    have hcond : ¬(d.high.getD 0 ≠ 0 ∧ d.low.getD 0 ≠ 0) := by tauto
    simp only [update_entry, hd]
    rw [if_neg hcond]
  · intro d hd hh hl
    simp only [update_entry, hd]
    rw [if_pos ⟨hh, hl⟩]

theorem C5_view_amended_witness :
    update_entry "Foo" 7 [] ⟨"x", "y", "z", "w"⟩ = ⟨"Foo: N/A", "y", "z", "w"⟩ ∧
    update_entry "Bar" 7 [("7", ⟨some 100, some 99⟩)] ⟨"x", "y", "z", "w"⟩
      = ⟨"Bar: 99 gp", "💰 Average: 99 gp", "📈 High: 100 gp", "📉 Low: 99 gp"⟩ := by
  constructor
  · exact ((C5_view_amended "Foo" 7 [] ⟨"x", "y", "z", "w"⟩).1 (by decide)).trans (by decide)
  · exact ((C5_view_amended "Bar" 7 [("7", ⟨some 100, some 99⟩)] ⟨"x", "y", "z", "w"⟩).2.2
      ⟨some 100, some 99⟩ (by decide) (by decide) (by decide)).trans (by decide)

/-- C6: the shared post-fetch transition of the startup/periodic loop and
the manual refresh worker: a failed fetch (`None`) or one that produced no
data (`{}` is falsy) leaves the snapshot, the timestamp string and the dirty
flag untouched; a fetch with data wholesale-replaces the snapshot, stamps
the new time, and sets the dirty flag true. -/
theorem C6_fetch_state (st : FetchState) (now : String) :
    (apply_fetch st FetchResult.failure now = st) ∧
    (apply_fetch st (FetchResult.success []) now = st) ∧
    (∀ d : List (String × PriceEntry), d ≠ [] →
      apply_fetch st (FetchResult.success d) now =
        { price_data := d, last_update_str := now, new_data_available := true }) := by
  refine ⟨rfl, rfl, ?_⟩
  intro d hd
  simp [apply_fetch, hd]

theorem C6_fetch_state_witness :
    apply_fetch ⟨[], "Never", false⟩ (FetchResult.success [("2", ⟨some 3, some 1⟩)]) "12:00:00"
      = ⟨[("2", ⟨some 3, some 1⟩)], "12:00:00", true⟩ :=
  (C6_fetch_state ⟨[], "Never", false⟩ "12:00:00").2.2 [("2", ⟨some 3, some 1⟩)] (by decide)

/-- C8: the displayed average for nonzero prices is the floor of the exact
rational (high + low) / 2; at high = 100, low = 99 it is 99. -/
theorem C8_average (high low : Nat) (hh : high ≠ 0) (hl : low ≠ 0) :
    avg_price high low = ⌊((high : ℚ) + (low : ℚ)) / 2⌋₊ := by
  have h1 : ((high : ℚ) + (low : ℚ)) = ((high + low : ℕ) : ℚ) := by push_cast; ring
  unfold avg_price
  rw [h1, show ((2 : ℚ)) = ((2 : ℕ) : ℚ) by norm_num, Nat.floor_div_eq_div]

theorem C8_average_witness :
    avg_price 100 99 = ⌊((100 : ℚ) + (99 : ℚ)) / 2⌋₊ ∧ avg_price 100 99 = 99 :=
  ⟨C8_average 100 99 (by decide) (by decide), rfl⟩

/-- C10: watchlist keys are case-sensitive: with an entry "Foo" present and
no entry "foo", adding "foo" keeps "Foo" intact, stores "foo" as a second
distinct entry (length grows by one), and removing "foo" afterwards still
leaves "Foo" with its original id. -/
theorem C10_case_sensitive (w : List (String × Nat)) (i j : Nat)
    (hFoo : alookup "Foo" w = some i) (hfoo : alookup "foo" w = none) :
    alookup "Foo" (add_to_watchlist w "foo" j) = some i ∧
    alookup "foo" (add_to_watchlist w "foo" j) = some j ∧
    (add_to_watchlist w "foo" j).length = w.length + 1 ∧
    alookup "Foo" (remove_from_watchlist (add_to_watchlist w "foo" j) "foo") = some i := by
  have hne : ("Foo" : String) ≠ "foo" := by decide
  refine ⟨?_, ?_, ?_, ?_⟩
  · unfold add_to_watchlist
    rw [alookup_dinsert_ne j hne]
    exact hFoo
  · exact alookup_dinsert_self _ _ _
  · exact length_dinsert_of_none j hfoo
  · unfold remove_from_watchlist add_to_watchlist
    have hsome : (alookup "foo" (dinsert "foo" j w)).isSome = true := by
      rw [alookup_dinsert_self]
      rfl
    rw [if_pos hsome, alookup_aerase_ne hne, alookup_dinsert_ne j hne]
    exact hFoo

theorem C10_case_sensitive_witness :
    alookup "Foo" (add_to_watchlist [("Foo", 1)] "foo" 2) = some 1 ∧
    alookup "foo" (add_to_watchlist [("Foo", 1)] "foo" 2) = some 2 ∧
    (add_to_watchlist [("Foo", 1)] "foo" 2).length = 2 ∧
    alookup "Foo" (remove_from_watchlist (add_to_watchlist [("Foo", 1)] "foo" 2) "foo") = some 1 :=
  C10_case_sensitive [("Foo", 1)] 1 2 (by decide) (by decide)

/-- C4: for a duplicate-free sequence of names (as read off the listbox,
whose rows are the unique watchlist keys) each of which exists in the
current watchlist, `save_reorder` rebuilds the watchlist to exactly the
named entries in the given order, each keeping its previously stored id
(names omitted from the sequence are thereby silently dropped), and the
subsequent `save_config` persists exactly the rebuilt watchlist. -/
theorem C4_reorder (old : List (String × Nat)) (names : List String)
    (hnd : names.Nodup) (hall : ∀ nm ∈ names, nm ∈ akeys old) :
    ((save_reorder_run old names).map Prod.fst = names) ∧
    (∀ p ∈ save_reorder_run old names, alookup p.1 old = some p.2) ∧
    (∀ f : FileState, save_config true (save_reorder_run old names) f =
      FileState.content (save_reorder_run old names)) := by
  refine ⟨?_, ?_, fun _ => rfl⟩
  · rw [save_reorder_run_eq old names hnd]
    exact filterMap_lookup_map_fst old names hall
  · intro p hp
    rw [save_reorder_run_eq old names hnd] at hp
    rcases List.mem_filterMap.mp hp with ⟨nm, _, hmap⟩
    rcases Option.map_eq_some'.mp hmap with ⟨i, hi, hpe⟩
    rw [← hpe]
    exact hi

theorem C4_reorder_witness :
    ((save_reorder_run [("A", 1), ("B", 2), ("C", 3)] ["C", "A"]).map Prod.fst = ["C", "A"]) ∧
    (∀ p ∈ save_reorder_run [("A", 1), ("B", 2), ("C", 3)] ["C", "A"],
      alookup p.1 [("A", 1), ("B", 2), ("C", 3)] = some p.2) ∧
    save_reorder_run [("A", 1), ("B", 2), ("C", 3)] ["C", "A"] = [("C", 3), ("A", 1)] :=
  ⟨(C4_reorder [("A", 1), ("B", 2), ("C", 3)] ["C", "A"] (by decide) (by decide)).1,
   (C4_reorder [("A", 1), ("B", 2), ("C", 3)] ["C", "A"] (by decide) (by decide)).2.1,
   by decide⟩

/-- C7: a query whose trimmed lowercase form is a key of the catalog hits
the exact-match branch: `search_item` returns that item's canonical display
name and id as sole best match with no suggestions, regardless of any other
names that would token-match. -/
theorem C7_exact_search (c : Catalog) (q : String) (iid : Nat)
    (hWF : CatalogWF c = true)
    (h : alookup (pyStrip (pyLower q)) c.name_to_id = some iid) :
    ∃ n, alookup iid c.id_to_name = some n ∧
      search_item c q = some (some n, some iid, []) := by
  rcases Option.isSome_iff_exists.mp (catalogWF_lookup hWF h) with ⟨n, hn⟩
  refine ⟨n, hn, ?_⟩
  simp [search_item, h, hn]

theorem C7_exact_search_witness :
    ∃ n, alookup 13190 catalogBond.id_to_name = some n ∧
      search_item catalogBond "old school bond" = some (some n, some 13190, []) :=
  C7_exact_search catalogBond "old school bond" 13190 (by decide) (by decide)

/-- C9: `format_price` renders suffix B with exactly two decimals at or
above 10^9, else suffix M with exactly two decimals at or above 10^6, else
suffix K with exactly one decimal at or above 10^3, else the bare integer;
and the spec's pinned examples evaluate as stated. -/
theorem C9_format :
    (∀ p : Nat, 1000000000 ≤ p →
      ∃ ip fr : String, format_price p = ip ++ "." ++ fr ++ "B" ∧ fr.length = 2) ∧
    (∀ p : Nat, p < 1000000000 → 1000000 ≤ p →
      ∃ ip fr : String, format_price p = ip ++ "." ++ fr ++ "M" ∧ fr.length = 2) ∧
    (∀ p : Nat, p < 1000000 → 1000 ≤ p →
      ∃ ip fr : String, format_price p = ip ++ "." ++ fr ++ "K" ∧ fr.length = 1) ∧
    (∀ p : Nat, p < 1000 → format_price p = natStr p) ∧
    format_price 999 = "999" ∧ format_price 1500 = "1.5K" ∧
    format_price 2500000 = "2.50M" ∧ format_price 1000000000 = "1.00B" := by
  refine ⟨?_, ?_, ?_, ?_, by decide, by decide, by decide, by decide⟩
  · intro p hp
    rcases fmtFixed_shape p 1000000000 2 with ⟨ip, fr, hval, hlen⟩
    refine ⟨ip, fr, ?_, hlen⟩
    unfold format_price
    rw [if_pos hp, hval]
  · intro p h1 h2
    rcases fmtFixed_shape p 1000000 2 with ⟨ip, fr, hval, hlen⟩
    refine ⟨ip, fr, ?_, hlen⟩
    unfold format_price
    rw [if_neg (by omega), if_pos h2, hval]
  · intro p h1 h2
    rcases fmtFixed_shape p 1000 1 with ⟨ip, fr, hval, hlen⟩
    refine ⟨ip, fr, ?_, hlen⟩
    unfold format_price
    rw [if_neg (by omega), if_neg (by omega), if_pos h2, hval]
  · intro p h1
    unfold format_price
    rw [if_neg (by omega), if_neg (by omega), if_neg (by omega)]

theorem C9_format_witness :
    (∃ ip fr : String, format_price 1234567 = ip ++ "." ++ fr ++ "M" ∧ fr.length = 2) ∧
    format_price 1500 = "1.5K" :=
  ⟨C9_format.2.1 1234567 (by decide) (by decide), C9_format.2.2.2.2.2.1⟩

/-- C1: for a query whose trimmed lowercase form is nonempty and not a
catalog key, the tokenized search considers exactly the catalog keys
containing every whitespace token (in catalog iteration order), ranks them
by ascending length with ties kept in catalog order (the ranked list is a
permutation of the matches, sorted by length, and within each length equal
to the matches in order), and returns the first ranked name (canonical form
and id) as best match with the next at-most-5 as suggestions; no matches
yields (None, None, []). -/
theorem C1_token_search (c : Catalog) (q : String)
    (hWF : CatalogWF c = true)
    (hne : pyStrip (pyLower q) ≠ "")
    (hnex : alookup (pyStrip (pyLower q)) c.name_to_id = none) :
    ((sortByLen (search_matches c (pyStrip (pyLower q)))).Perm
      (search_matches c (pyStrip (pyLower q)))) ∧
    ((sortByLen (search_matches c (pyStrip (pyLower q)))).Pairwise
      (fun a b => a.length ≤ b.length)) ∧
    (∀ n, (sortByLen (search_matches c (pyStrip (pyLower q)))).filter (fun s => s.length == n)
      = (search_matches c (pyStrip (pyLower q))).filter (fun s => s.length == n)) ∧
    (search_matches c (pyStrip (pyLower q)) = [] →
      search_item c q = some (none, none, [])) ∧
    (∀ b rest, sortByLen (search_matches c (pyStrip (pyLower q))) = b :: rest →
      ∃ bi bn sugg, alookup b c.name_to_id = some bi ∧
        alookup bi c.id_to_name = some bn ∧
        omapM (canonName c) (rest.take 5) = some sugg ∧
        search_item c q = some (some bn, some bi, sugg)) := by
  have hsplit : pySplit (pyStrip (pyLower q)) ≠ [] := pySplit_pyStrip_ne_nil (pyLower q) hne
  refine ⟨sortByLen_perm _, sortByLen_sorted _, fun n => filter_sortByLen n _, ?_, ?_⟩
  · intro hM
    simp only [search_item, hnex]
    simp only [search_tokens, hM]
    by_cases ht : pySplit (pyStrip (pyLower q)) = []
    · simp [ht]
    · simp [ht]
  · intro b rest hR
    have hbR : b ∈ sortByLen (search_matches c (pyStrip (pyLower q))) := by
      rw [hR]; exact List.mem_cons_self _ _
    have hbM : b ∈ search_matches c (pyStrip (pyLower q)) :=
      ((sortByLen_perm _).mem_iff).mp hbR
    have hbK : b ∈ akeys c.name_to_id := (List.mem_filter.mp hbM).1
    rcases Option.isSome_iff_exists.mp (alookup_isSome_of_mem_keys hbK) with ⟨bi, hbi⟩
    rcases Option.isSome_iff_exists.mp (catalogWF_lookup hWF hbi) with ⟨bn, hbn⟩
    have hsugg : ∀ x ∈ rest.take 5, (canonName c x).isSome = true := by
      intro x hx
      have hxrest : x ∈ rest := List.take_subset 5 rest hx
      have hxR : x ∈ sortByLen (search_matches c (pyStrip (pyLower q))) := by
        rw [hR]; exact List.mem_cons_of_mem _ hxrest
      have hxM : x ∈ search_matches c (pyStrip (pyLower q)) :=
        ((sortByLen_perm _).mem_iff).mp hxR
      have hxK : x ∈ akeys c.name_to_id := (List.mem_filter.mp hxM).1
      rcases Option.isSome_iff_exists.mp (alookup_isSome_of_mem_keys hxK) with ⟨xi, hxi⟩
      unfold canonName
      rw [hxi]
      exact catalogWF_lookup hWF hxi
    rcases omapM_isSome (canonName c) (rest.take 5) hsugg with ⟨sugg, hmap⟩
    refine ⟨bi, bn, sugg, hbi, hbn, hmap, ?_⟩
    have hM : search_matches c (pyStrip (pyLower q)) ≠ [] := by
      intro h0
      rw [h0] at hR
      simp [sortByLen] at hR
    simp only [search_item, hnex]
    simp only [search_tokens, if_neg hsplit, if_neg hM, hR, hbi, hbn, hmap]

theorem C1_token_search_witness :
    ∃ bi bn sugg, alookup "rune scimitar" catalogScim.name_to_id = some bi ∧
      alookup bi catalogScim.id_to_name = some bn ∧
      omapM (canonName catalogScim) (["rune scimitar (or)"].take 5) = some sugg ∧
      search_item catalogScim "Rune SCIM" = some (some bn, some bi, sugg) :=
  (C1_token_search catalogScim "Rune SCIM" (by decide) (by decide) (by decide)).2.2.2.2
    "rune scimitar" ["rune scimitar (or)"] (by decide)

end GeTracker
